import Mathlib

/-!
Verification development for the `mcp-terminal-awareness` server.

The TypeScript sources are shallowly embedded: JavaScript strings are modelled
as Lean `String`/`List Char` (code points), machine numbers as `Nat`/`Int`,
host timers as explicit bookkeeping (armed / cancelled / fired identifiers),
and adapter side effects as explicit action lists.  Each definition is a
direct translation of the function of the same name in the repository.
-/

namespace MCPTerm

/-! ## ANSI / spinner filter (`src/heuristics/ansi.ts`) -/

/-- The character class of JavaScript `\s` (also the set trimmed by
`String.prototype.trimEnd`): whitespace and line terminators. -/
def jsWhitespace (c : Char) : Bool :=
  c = ' ' || c = '\t' || c = '\n' || c = '\r' || c.toNat = 0x0b || c.toNat = 0x0c ||
  c.toNat = 0xA0 || c.toNat = 0x1680 ||
  (0x2000 ≤ c.toNat && c.toNat ≤ 0x200A) ||
  c.toNat = 0x2028 || c.toNat = 0x2029 || c.toNat = 0x202F || c.toNat = 0x205F ||
  c.toNat = 0x3000 || c.toNat = 0xFEFF

/-- Characters matched by `[0-9;]` in the SGR regex `\u001b\[[0-9;]*m`. -/
def isSgrBodyChar (c : Char) : Bool := c.isDigit || c = ';'

/-- If the character list begins with an SGR escape sequence
(`ESC [ <digits-and-semicolons> m`), return the remainder after it. -/
def sgrSuffix (l : List Char) : Option (List Char) :=
  match l with
  | '\x1b' :: '[' :: rest =>
    match rest.dropWhile isSgrBodyChar with
    | 'm' :: rest2 => some rest2
    | _ => none
  | _ => none

/-- `stripAnsi` with explicit fuel (the fuel is always at least the length of
the list, so the `0` case is unreachable); removes every SGR escape sequence,
exactly as `s.replace(/\u001b\[[0-9;]*m/g, "")`. -/
def stripAnsiAux : Nat → List Char → List Char
  | 0, _ => []
  | _ + 1, [] => []
  | fuel + 1, c :: rest =>
    match sgrSuffix (c :: rest) with
    | some r => stripAnsiAux fuel r
    | none => c :: stripAnsiAux fuel rest

/-- `stripAnsi(s)` from `src/heuristics/ansi.ts`. -/
def stripAnsiL (l : List Char) : List Char := stripAnsiAux l.length l

/-- `String.prototype.trimEnd`: drop trailing whitespace. -/
def trimEndL (l : List Char) : List Char := (l.reverse.dropWhile jsWhitespace).reverse

/-- The four spinner glyphs: pipe, slash, dash, backslash. -/
def spinnerChars : List Char := ['|', '/', '-', '\\']

/-- `spinners.includes(la)` where `la` is `a.at(-1) || ""`: on an empty
string the JavaScript `includes` call returns `true`, since the empty string
is a substring of the spinner string. -/
def spinnerIncludes : Option Char → Bool
  | none => true
  | some c => spinnerChars.contains c

/-- `isLikelySpinnerFrame(prev, next)` from `src/heuristics/ansi.ts`. -/
def isLikelySpinnerFrame (prev next : String) : Bool :=
  let a := trimEndL (stripAnsiL prev.data)
  let b := trimEndL (stripAnsiL next.data)
  if a.length ≠ b.length then false
  else if !(spinnerIncludes a.getLast? && spinnerIncludes b.getLast?) then false
  else a.dropLast = b.dropLast

/-- The description of `isSpinnerFrame` given by the spec: equal length after
stripping, the final character of each is a spinner glyph, and the two are
identical on every character before the final one. -/
def spinnerFrameClaim (prev next : String) : Prop :=
  let a := trimEndL (stripAnsiL prev.data)
  let b := trimEndL (stripAnsiL next.data)
  a.length = b.length ∧
  (∃ ca, a.getLast? = some ca ∧ ca ∈ spinnerChars) ∧
  (∃ cb, b.getLast? = some cb ∧ cb ∈ spinnerChars) ∧
  (∀ i, i + 1 < a.length → a.get? i = b.get? i)

/-- The claim amended at the empty-string edge case: two inputs whose
stripped, right-trimmed forms are both empty also count as spinner frames. -/
def spinnerFrameAmended (prev next : String) : Prop :=
  let a := trimEndL (stripAnsiL prev.data)
  let b := trimEndL (stripAnsiL next.data)
  a.length = b.length ∧
  ((a = [] ∧ b = []) ∨
    ((∃ ca, a.getLast? = some ca ∧ ca ∈ spinnerChars) ∧
     (∃ cb, b.getLast? = some cb ∧ cb ∈ spinnerChars) ∧
     (∀ i, i + 1 < a.length → a.get? i = b.get? i)))

/-! ## Prompt detection (`src/heuristics/prompts.ts`)

The two calibrated patterns are the PowerShell regex
`(\n|\r|^)PS [^\n>]+>\s$` and the POSIX regex `(\n|\r|^)[^\n]*[$#]\s$`,
both with the multiline flag.  A regex `test` is an existential over match
positions, embedded below as bounded searches. -/

/-- JavaScript line terminators (`\n`, `\r`, U+2028, U+2029), the positions
at which multiline `^` and `$` anchor. -/
def isLineTermC (c : Char) : Bool :=
  c = '\n' || c = '\r' || c.toNat = 0x2028 || c.toNat = 0x2029

/-- Multiline `^` (or the consumed `\n` / `\r` of the leading group) can
place the match content at position `p`. -/
def regexBolAt (s : List Char) (p : Nat) : Bool :=
  p == 0 || (match s.get? (p - 1) with | some c => isLineTermC c | none => false)

/-- Multiline `$` matches at position `q`: end of input or before a line
terminator. -/
def regexEolAt (s : List Char) (q : Nat) : Bool :=
  q == s.length || (match s.get? q with | some c => isLineTermC c | none => false)

/-- Test of the POSIX prompt regex `(\n|\r|^)[^\n]*[$#]\s$` (multiline):
some line suffix of non-newline characters ends with `$` or `#` followed by
one whitespace character at end of line. -/
def posixPromptTest (str : String) : Bool :=
  let s := str.data
  (List.range (s.length + 1)).any fun p =>
    regexBolAt s p &&
    ((List.range (s.length + 1)).any fun q =>
      decide (p ≤ q) &&
      ((List.range (q - p)).all fun i => s.get? (p + i) != some '\n') &&
      (s.get? q == some '$' || s.get? q == some '#') &&
      (match s.get? (q + 1) with | some c => jsWhitespace c | none => false) &&
      regexEolAt s (q + 2))

/-- Test of the PowerShell prompt regex `(\n|\r|^)PS [^\n>]+>\s$`
(multiline). -/
def powershellPromptTest (str : String) : Bool :=
  let s := str.data
  (List.range (s.length + 1)).any fun p =>
    regexBolAt s p &&
    s.get? p == some 'P' && s.get? (p + 1) == some 'S' && s.get? (p + 2) == some ' ' &&
    ((List.range (s.length + 1)).any fun q =>
      decide (p + 4 ≤ q) &&
      ((List.range (q - (p + 3))).all fun i =>
        match s.get? (p + 3 + i) with
        | some c => !(c = '\n' || c = '>')
        | none => false) &&
      s.get? q == some '>' &&
      (match s.get? (q + 1) with | some c => jsWhitespace c | none => false) &&
      regexEolAt s (q + 2))

/-- The two members of `COMMON_PROMPTS`, in order. -/
inductive PromptKind
  | powershell
  | posix
deriving DecidableEq, Repr

/-- `re.test(line)` for a cached prompt pattern (applied to the raw line). -/
def promptTest : PromptKind → String → Bool
  | .powershell, s => powershellPromptTest s
  | .posix, s => posixPromptTest s

/-- `detectPrompt(line)` from `src/heuristics/prompts.ts`: strip ANSI, then
return the first matching pattern of `COMMON_PROMPTS`. -/
def detectPrompt (line : String) : Option PromptKind :=
  let clean : String := ⟨stripAnsiL line.data⟩
  if powershellPromptTest clean then some .powershell
  else if posixPromptTest clean then some .posix
  else none

/-! ## Sessions and heuristics (`src/sessions.ts`)

Host timers are embedded explicitly: a `setTimeout` allocates a fresh
identifier; `clearTimeout` records the identifier as cancelled; a timer
event for an identifier runs its callback only if that identifier is the
armed one and was neither cancelled nor already fired.  The adapter handle
is modelled by its presence bit, and writes/kills to it as explicit
actions. -/

/-- `SessionStatus` from `src/sessions.ts`. -/
inductive SessionStatus
  | idle
  | running
  | waiting
  | possiblyStuck
  | completed
  | error
deriving DecidableEq, Repr

/-- The `Session` record from `src/sessions.ts` (timer handles live in
`HState`; the adapter is modelled by its presence). -/
structure Session where
  id : String
  buf : List String
  lastByteAt : Nat
  status : SessionStatus
  errorReason : Option String
  promptRe : Option PromptKind
  exitCode : Option Int
  exitSignal : Option String
  totalBytes : Nat
  maxBufferBytes : Nat
  adapterPresent : Bool
deriving DecidableEq, Repr

/-- A session together with the `wireHeuristics` closure state (`lastLine`)
and the host-timer bookkeeping for its quiet and idle timers. -/
structure HState where
  sess : Session
  lastLine : String
  quietTimer : Option Nat
  idleArmed : Bool
  cancelledTimers : List Nat
  firedTimers : List Nat
  nextTimerId : Nat
deriving DecidableEq, Repr

/-- `SessionStore.newSession()`: fresh id, empty buffer, status `idle`,
`totalBytes` 0, `maxBufferBytes` 2,000,000. -/
def newSession (id : String) (now : Nat) : Session :=
  { id := id, buf := [], lastByteAt := now, status := .idle,
    errorReason := none, promptRe := none, exitCode := none, exitSignal := none,
    totalBytes := 0, maxBufferBytes := 2000000, adapterPresent := false }

/-- The session as `terminal.run` prepares it: `maxBufferBytes` from the
input, adapter attached, status `running`. -/
def runSessionStart (id : String) (now : Nat) (maxBufferBytes : Nat) : Session :=
  { newSession id now with
    maxBufferBytes := maxBufferBytes, status := .running, adapterPresent := true }

/-- Heuristics state before any event: no timers armed, `lastLine` empty. -/
def initialHState (sess : Session) : HState :=
  { sess := sess, lastLine := "", quietTimer := none, idleArmed := false,
    cancelledTimers := [], firedTimers := [], nextTimerId := 0 }

/-- `scheduleQuietComplete` (arming part, `src/sessions.ts` lines 43-45):
clear any pending quiet timer and arm a fresh one-shot.  The callback body
is run by the `quietFire` event in `stepH`. -/
def scheduleQuietComplete (st : HState) : HState :=
  let st1 := match st.quietTimer with
    | some t => { st with cancelledTimers := t :: st.cancelledTimers }
    | none => st
  { st1 with quietTimer := some st1.nextTimerId, nextTimerId := st1.nextTimerId + 1 }

/-- `text.split(/\r?\n/)`: break at `\n` or `\r\n`. -/
def splitLinesAux : List Char → List Char → List (List Char)
  | acc, [] => [acc.reverse]
  | acc, '\r' :: '\n' :: rest => acc.reverse :: splitLinesAux [] rest
  | acc, '\n' :: rest => acc.reverse :: splitLinesAux [] rest
  | acc, c :: rest => splitLinesAux (c :: acc) rest

/-- `text.split(/\r?\n/)` on a string. -/
def splitLines (s : String) : List String :=
  (splitLinesAux [] s.data).map fun l => ⟨l⟩

/-- The per-line classification step of `onChunk`: spinner-frame skip,
`lastLine` update, prompt calibration, and quiet-timer (re)arming on a
prompt match (`looksFinished` is evaluated but acts on nothing). -/
def processLine (st : HState) (line : String) : HState :=
  if line ≠ "" ∧ isLikelySpinnerFrame st.lastLine line then st
  else
    let st1 := { st with lastLine := line }
    let st2 :=
      if st1.sess.promptRe = none then
        { st1 with sess := { st1.sess with promptRe := detectPrompt line } }
      else st1
    match st2.sess.promptRe with
    | some p => if promptTest p line then scheduleQuietComplete st2 else st2
    | none => st2

/-- The classification loop of `onChunk` over the split lines. -/
def processLines (st : HState) (lines : List String) : HState :=
  lines.foldl processLine st

/-- Sum of UTF-8 byte lengths of the buffered chunks. -/
def sumBytes (l : List String) : Nat :=
  (l.map String.utf8ByteSize).sum

/-- `sess.maxBufferBytes || 2_000_000`: a zero (falsy) cap falls back to
the default. -/
def bufferCap (m : Nat) : Nat := if m = 0 then 2000000 else m

/-- The trimming loop of `onChunk`: while `totalBytes > cap` and more than
one chunk is buffered, shift the oldest chunk off and subtract its bytes. -/
def trimBuf (cap : Nat) : List String → Nat → List String × Nat
  | [], total => ([], total)
  | [x], total => ([x], total)
  | x :: y :: rest, total =>
    if total > cap then trimBuf cap (y :: rest) (total - x.utf8ByteSize)
    else (x :: y :: rest, total)

/-- The events a session observes: an adapter data chunk (with the clock
value used for `lastByteAt`), the adapter exit event, the firing of an
armed quiet timer, one idle-interval tick, and the arming of the idle
interval by `startIdleTimers`. -/
inductive HEvent
  | chunk (text : String) (now : Nat)
  | exitEvt
  | quietFire (tid : Nat)
  | idleTick (now : Nat)
  | startIdle
deriving DecidableEq, Repr

/-- One step of the heuristics engine of `wireHeuristics`
(`src/sessions.ts`): `onChunk`, `onExit`, the quiet-timer callback of
`scheduleQuietComplete`, one tick of the `startIdleTimers` interval, and
`startIdleTimers` itself. -/
def stepH (waitingMs stuckMs : Nat) (st : HState) (e : HEvent) : HState :=
  match e with
  | .chunk text now =>
    let st1 := processLines st (splitLines text)
    let buf1 := st1.sess.buf ++ [text]
    let total1 := st1.sess.totalBytes + text.utf8ByteSize
    let p := trimBuf (bufferCap st1.sess.maxBufferBytes) buf1 total1
    { st1 with sess := { st1.sess with buf := p.1, totalBytes := p.2, lastByteAt := now } }
  | .exitEvt => scheduleQuietComplete st
  | .quietFire tid =>
    if st.quietTimer = some tid ∧ tid ∉ st.cancelledTimers ∧ tid ∉ st.firedTimers then
      let st1 := { st with firedTimers := tid :: st.firedTimers }
      if st1.sess.status ≠ .completed ∧ st1.sess.status ≠ .error then
        { st1 with sess := { st1.sess with status := .completed }, idleArmed := false }
      else st1
    else st
  | .idleTick now =>
    if st.idleArmed then
      let idle := now - st.sess.lastByteAt
      let s1 :=
        if st.sess.status = .running ∧ idle > waitingMs then
          { st.sess with status := .waiting }
        else st.sess
      let s2 :=
        if (s1.status = .waiting ∨ s1.status = .running) ∧ idle > stuckMs then
          { s1 with status := .possiblyStuck }
        else s1
      { st with sess := s2 }
    else st
  | .startIdle => { st with idleArmed := true }

/-- Run a sequence of events through the heuristics engine. -/
def runH (waitingMs stuckMs : Nat) (st : HState) (events : List HEvent) : HState :=
  events.foldl (stepH waitingMs stuckMs) st

/-- The chunk texts carried by a sequence of events, in order. -/
def chunkTexts (events : List HEvent) : List String :=
  events.filterMap fun e =>
    match e with
    | .chunk text _ => some text
    | _ => none

/-- Number of steps of a trace on which the session transitions into
status `completed`. -/
def countCompleted (waitingMs stuckMs : Nat) : HState → List HEvent → Nat
  | _, [] => 0
  | st, e :: rest =>
    let st1 := stepH waitingMs stuckMs st e
    (if st.sess.status ≠ .completed ∧ st1.sess.status = .completed then 1 else 0) +
      countCompleted waitingMs stuckMs st1 rest

/-- The buffer bookkeeping invariant of a session: `totalBytes` is the sum
of the buffered chunk sizes, and it respects the effective cap unless a
single oversized chunk is retained. -/
def bufInvariant (st : HState) : Prop :=
  st.sess.totalBytes = sumBytes st.sess.buf ∧
  (st.sess.totalBytes ≤ bufferCap st.sess.maxBufferBytes ∨ st.sess.buf.length = 1)

/-- A quiet timer is pending when its armed identifier was neither
cancelled nor fired. -/
def quietPendingB (st : HState) : Bool :=
  match st.quietTimer with
  | none => false
  | some t => !(st.cancelledTimers.contains t) && !(st.firedTimers.contains t)

/-! ## Tool surface (`src/index.ts` — `part_004`) -/

/-- A side effect performed on the process adapter. -/
inductive AdapterAction
  | write (data : String)
  | kill (signal : String)
deriving DecidableEq, Repr

/-- The `CommandResult` interface of `src/index.ts` (lines 50-56): the
record resolved by `terminal.run`.  It has no `exitSignal` field. -/
structure CommandResult where
  sessionId : String
  output : String
  exitCode : Option Int
  success : Bool
  error : Option String
deriving DecidableEq, Repr

/-- Rendering of a JavaScript `number | null` inside a template string. -/
def showExitCode : Option Int → String
  | none => "null"
  | some n => toString n

/-- The first `onExit` handler of `createRunTool.invoke` (lines 431-453):
set terminal status and exit info, then resolve the promise.  The promise
resolves at most once, so this resolution value is the value `run`
returns. -/
def runToolOnExit (sess : Session) (code : Option Int) (signal : Option String) :
    Session × CommandResult :=
  let sess1 := { sess with
    status := if code = some 0 then .completed else .error,
    exitCode := code, exitSignal := signal }
  (sess1,
   { sessionId := sess1.id
     output := String.join sess1.buf
     exitCode := code
     success := code == some 0
     error := if code = some 0 then none
              else some ("Process exited with code " ++ showExitCode code) })

/-- The catch block of `createRunTool.invoke` (lines 485-492): on adapter
spawn failure the session is marked `error` and the tool call throws
(`Except.error`), it does not resolve with a result record. -/
def runToolSpawnFail (sess : Session) (msg : String) :
    Session × Except String CommandResult :=
  ({ sess with status := .error, errorReason := some msg },
   Except.error ("Failed to start command: " ++ msg))

/-- The `timeoutMs` handler of `createRunTool.invoke` (lines 420-426):
fires only in status `running` or `waiting`; then it marks the session
errored with reason "Command timed out" and SIGTERMs the adapter. -/
def runToolTimeoutFire (sess : Session) : Session × List AdapterAction :=
  if sess.status = .running ∨ sess.status = .waiting then
    ({ sess with status := .error, errorReason := some "Command timed out" },
     [.kill "SIGTERM"])
  else (sess, [])

/-- `createWriteTool.invoke` (lines 542-551): look the session up, throw
unless it has an adapter, otherwise write the data verbatim. -/
def createWriteToolInvoke (sess : Option Session) (data : String) :
    Except String (List AdapterAction) :=
  match sess with
  | some s =>
    if s.adapterPresent then .ok [.write data]
    else .error "Session not found or not active"
  | none => .error "Session not found or not active"

/-- `createSignalTool.invoke` (lines 570-578): the signal argument defaults
to "SIGTERM" and is passed to `adapter.kill` unchanged. -/
def createSignalToolInvoke (sess : Option Session) (signal : Option String) :
    Except String (List AdapterAction) :=
  let sig := signal.getD "SIGTERM"
  match sess with
  | some s =>
    if s.adapterPresent then .ok [.kill sig]
    else .error "Session not found or not active"
  | none => .error "Session not found or not active"

/-! ## JSON-RPC dispatch (`src/mcp/jsonrpc.ts` — `part_003`) -/

/-- Parsed JSON values.  An object is its field list (keys distinct, as
produced by `JSON.parse`). -/
inductive JValue
  | null
  | bool (b : Bool)
  | num (n : Int)
  | str (s : String)
  | arr (elems : List JValue)
  | obj (fields : List (String × JValue))

/-- Property lookup on an object field list. -/
def lookupField : List (String × JValue) → String → Option JValue
  | [], _ => none
  | (k, v) :: rest, key => if k = key then some v else lookupField rest key

/-- JavaScript property access `v.key`: `none` models `undefined` (also the
result on non-objects). -/
def getField : JValue → String → Option JValue
  | .obj fields, key => lookupField fields key
  | _, _ => none

/-- JavaScript falsiness of a parsed JSON value (`!msg`). -/
def jsFalsy : JValue → Bool
  | .null => true
  | .bool b => !b
  | .num n => n == 0
  | .str s => s == ""
  | _ => false

/-- A registered method handler: receives `params` and `id` (absent fields
as `none`), returns a result or throws. -/
def Handler : Type :=
  Option JValue → Option JValue → Except String (Option JValue)

/-- Handler lookup in the registration map. -/
def lookupHandler : List (String × Handler) → String → Option Handler
  | [], _ => none
  | (k, h) :: rest, key => if k = key then some h else lookupHandler rest key

/-- A JSON-RPC response line (before stringification). -/
structure JResponse where
  id : JValue
  result : Option JValue
  errCode : Option Int
  errMsg : Option String

/-- `JSONRPCServer.dispatch` (`src/mcp/jsonrpc.ts` lines 31-54).  The input
is the result of `JSON.parse` on the raw line, `none` when parsing threw.
Returns the response, or `none` when no response is sent. -/
def dispatch (handlers : List (String × Handler)) (parsed : Option JValue) :
    Option JResponse :=
  match parsed with
  | none => none
  | some v =>
    if jsFalsy v then none
    else
      match getField v "jsonrpc" with
      | some (.str ver) =>
        if ver = "2.0" then
          match getField v "method" with
          | some (.str m) =>
            (match lookupHandler handlers m with
             | none =>
               match getField v "id" with
               | some idv =>
                 some { id := idv, result := none, errCode := some (-32601),
                        errMsg := some ("Method not found: " ++ m) }
               | none => none
             | some h =>
               match h (getField v "params") (getField v "id") with
               | .ok res =>
                 match getField v "id" with
                 | some idv =>
                   some { id := idv, result := some (res.getD .null),
                          errCode := none, errMsg := none }
                 | none => none
               | .error e =>
                 match getField v "id" with
                 | some idv =>
                   some { id := idv, result := none, errCode := some (-32000),
                          errMsg := some e }
                 | none => none)
          | _ => none
        else none
      | _ => none

/-! ## Concrete sessions and states used by witnesses and
counterexamples -/

/-- A live running session with an attached adapter and one buffered
chunk. -/
def exSessionRunning : Session :=
  { id := "s1", buf := ["out"], lastByteAt := 0, status := .running,
    errorReason := none, promptRe := none, exitCode := none, exitSignal := none,
    totalBytes := 3, maxBufferBytes := 2000000, adapterPresent := true }

/-- The same session after a `completed` transition; the adapter handle is
still attached (the code never releases it). -/
def exSessionCompleted : Session :=
  { exSessionRunning with status := .completed }

/-- The same session classified `possibly-stuck`. -/
def exSessionStuck : Session :=
  { exSessionRunning with status := .possiblyStuck }

/-- A possibly-stuck session with its idle interval armed. -/
def exHStateStuck : HState :=
  { initialHState exSessionStuck with idleArmed := true }

/-- A running session whose quiet timer 0 is armed and idle interval is
running. -/
def exHStateQuietArmed : HState :=
  { initialHState exSessionRunning with
    quietTimer := some 0, nextTimerId := 1, idleArmed := true }

/-- A parsed request whose method is not registered and that carries an
id. -/
def exReqUnknownMethod : JValue :=
  .obj [("jsonrpc", .str "2.0"), ("method", .str "nope"), ("id", .num 1)]

/-! # Theorems -/

/-- Two lists of equal length have equal `dropLast` exactly when they agree
at every index below the last. -/
theorem dropLast_eq_iff_agree_below {a b : List Char} (hlen : a.length = b.length) :
    a.dropLast = b.dropLast ↔ ∀ i, i + 1 < a.length → a.get? i = b.get? i := by
  rw [List.dropLast_eq_take, List.dropLast_eq_take, ← hlen, List.ext_get?_iff]
  constructor
  · intro h i hi
    have hh := h i
    rw [List.get?_eq_getElem?, List.get?_eq_getElem?,
        List.getElem?_take_of_lt (by omega), List.getElem?_take_of_lt (by omega)] at hh
    rwa [List.get?_eq_getElem?, List.get?_eq_getElem?]
  · intro h n
    by_cases hn : n < a.length - 1
    · rw [List.get?_eq_getElem?, List.get?_eq_getElem?,
          List.getElem?_take_of_lt hn, List.getElem?_take_of_lt hn,
          ← List.get?_eq_getElem?, ← List.get?_eq_getElem?]
      exact h n (by omega)
    · have h1 : (a.take (a.length - 1)).get? n = none := by
        rw [List.get?_eq_getElem?]
        exact List.getElem?_eq_none (by simp [List.length_take]; omega)
      have h2 : (b.take (a.length - 1)).get? n = none := by
        rw [List.get?_eq_getElem?]
        exact List.getElem?_eq_none (by simp [List.length_take]; omega)
      rw [h1, h2]

/-- **C6** counterexample: on the inputs `prev = ""` and `next = ""` the
code returns `true` — the `includes` test on the empty last-character
string succeeds — while the claimed characterisation requires a final
spinner character, which an empty string does not have. -/
theorem C6_counterexample :
    isLikelySpinnerFrame "" "" = true ∧ ¬ spinnerFrameClaim "" "" := by
  refine ⟨by decide, ?_⟩
  rintro ⟨-, ⟨ca, hca, -⟩, -⟩
  exact Option.noConfusion hca

/-- **C6** (amended): `isLikelySpinnerFrame(prev, next)` returns true iff,
after stripping ANSI SGR sequences and trailing whitespace, the two
results have equal length and either both are empty, or the final
character of each is a spinner glyph and they are identical on every
character before the final one. -/
theorem C6_spinner_frame_iff (prev next : String) :
    isLikelySpinnerFrame prev next = true ↔ spinnerFrameAmended prev next := by
  simp only [isLikelySpinnerFrame, spinnerFrameAmended]
  generalize trimEndL (stripAnsiL prev.data) = a
  generalize trimEndL (stripAnsiL next.data) = b
  by_cases hlen : a.length = b.length
  · cases a with
    | nil =>
      have hb : b = [] := by
        have h0 : b.length = 0 := by simpa using hlen.symm
        exact List.length_eq_zero.mp h0
      subst hb
      simp [spinnerIncludes]
    | cons x xs =>
      have hbne : b ≠ [] := by
        intro hb
        subst hb
        simp at hlen
      obtain ⟨la, hla⟩ : ∃ la, (x :: xs).getLast? = some la :=
        ⟨(x :: xs).getLast (by simp), List.getLast?_eq_getLast _ _⟩
      obtain ⟨lb, hlb⟩ : ∃ lb, b.getLast? = some lb :=
        ⟨b.getLast hbne, List.getLast?_eq_getLast _ _⟩
      have hcontains : ∀ c : Char, spinnerChars.contains c = true ↔ c ∈ spinnerChars :=
        fun c => List.elem_iff
      rw [if_neg (by simp [hlen]), hla, hlb]
      by_cases hma : la ∈ spinnerChars
      · by_cases hmb : lb ∈ spinnerChars
        · rw [if_neg (by simp [spinnerIncludes]; exact ⟨hma, hmb⟩)]
          simp only [decide_eq_true_eq]
          constructor
          · intro hd
            exact ⟨hlen, Or.inr ⟨⟨la, rfl, hma⟩, ⟨lb, rfl, hmb⟩,
              (dropLast_eq_iff_agree_below hlen).mp hd⟩⟩
          · rintro ⟨-, h | ⟨-, -, hagree⟩⟩
            · exact absurd h.1 (by simp)
            · exact (dropLast_eq_iff_agree_below hlen).mpr hagree
        · rw [if_pos (by simp [spinnerIncludes]; exact Or.inr hmb)]
          constructor
          · intro h
            exact absurd h (by simp)
          · rintro ⟨-, h | ⟨-, ⟨lb2, hlb2, hmemb⟩, -⟩⟩
            · exact absurd h.1 (by simp)
            · cases hlb2
              exact absurd hmemb hmb
      · rw [if_pos (by simp [spinnerIncludes]; exact Or.inl hma)]
        constructor
        · intro h
          exact absurd h (by simp)
        · rintro ⟨-, h | ⟨⟨la2, hla2, hmema⟩, -, -⟩⟩
          · exact absurd h.1 (by simp)
          · cases hla2
            exact absurd hmema hma
  · rw [if_pos (by simpa using hlen)]
    simp [hlen]

/-- **C10**: the run-tool timeout handler is a no-op (no signal, session
untouched) unless the status is `running` or `waiting`; in those statuses
it sets status `error` with reason "Command timed out" and SIGTERMs the
adapter. -/
theorem C10_timeout_guard (sess : Session) :
    ((sess.status ≠ .running ∧ sess.status ≠ .waiting) →
      runToolTimeoutFire sess = (sess, [])) ∧
    ((sess.status = .running ∨ sess.status = .waiting) →
      runToolTimeoutFire sess =
        ({ sess with status := .error, errorReason := some "Command timed out" },
         [.kill "SIGTERM"])) := by
  constructor
  · intro h
    rw [runToolTimeoutFire, if_neg]
    rintro (h1 | h2)
    exacts [h.1 h1, h.2 h2]
  · intro h
    rw [runToolTimeoutFire, if_pos h]

/-- Witness for C10 at a possibly-stuck and at a running session. -/
theorem C10_timeout_guard_witness :
    runToolTimeoutFire exSessionStuck = (exSessionStuck, []) ∧
    runToolTimeoutFire exSessionRunning =
      ({ exSessionRunning with status := .error, errorReason := some "Command timed out" },
       [.kill "SIGTERM"]) :=
  ⟨(C10_timeout_guard exSessionStuck).1 (by decide),
   (C10_timeout_guard exSessionRunning).2 (by decide)⟩

/-- **C8**: the signal tool defaults an omitted signal to "SIGTERM" — not
"SIGINT" — and passes "CTRL_C" straight to `adapter.kill` instead of
writing the byte 0x03 to stdin.  This contradicts the README of the
repository, which documents default SIGINT and a synthetic CTRL_C. -/
theorem C8_signal_divergence :
    createSignalToolInvoke (some exSessionRunning) none = .ok [.kill "SIGTERM"] ∧
    createSignalToolInvoke (some exSessionRunning) (some "CTRL_C") = .ok [.kill "CTRL_C"] ∧
    createSignalToolInvoke (some exSessionRunning) (some "CTRL_C") ≠ .ok [.write "\x03"] := by
  refine ⟨rfl, rfl, ?_⟩
  intro h
  simp [createSignalToolInvoke, exSessionRunning] at h

/-- **C7** counterexample: a session in terminal status `completed` whose
adapter handle is still attached (the code never releases it) is written
to successfully; the write tool does not consult the status. -/
theorem C7_counterexample :
    exSessionCompleted.status = .completed ∧
    createWriteToolInvoke (some exSessionCompleted) "ls\n" = .ok [.write "ls\n"] :=
  ⟨rfl, rfl⟩

/-- **C7** (amended): the write tool writes `data` verbatim exactly when
the session exists and its adapter handle is present — terminal status
alone does not prevent the write, since the adapter is never released —
and in every other case it errors and writes nothing. -/
theorem C7_write_adapter_guard (sess : Option Session) (data : String) :
    (createWriteToolInvoke sess data = .ok [.write data] ↔
      ∃ s, sess = some s ∧ s.adapterPresent = true) ∧
    (∀ s, sess = some s → s.adapterPresent = false →
      createWriteToolInvoke sess data = .error "Session not found or not active") ∧
    (sess = none →
      createWriteToolInvoke sess data = .error "Session not found or not active") := by
  refine ⟨⟨?_, ?_⟩, ?_, ?_⟩
  · intro h
    cases sess with
    | none => exact absurd h (by simp [createWriteToolInvoke])
    | some s =>
      refine ⟨s, rfl, ?_⟩
      by_cases hp : s.adapterPresent
      · exact hp
      · exact absurd h (by simp [createWriteToolInvoke, hp])
  · rintro ⟨s, rfl, hp⟩
    simp [createWriteToolInvoke, hp]
  · rintro s rfl hp
    simp [createWriteToolInvoke, hp]
  · rintro rfl
    rfl

/-- Witness for C7 at a live running session. -/
theorem C7_write_adapter_guard_witness :
    createWriteToolInvoke (some exSessionRunning) "x" = .ok [.write "x"] :=
  ((C7_write_adapter_guard (some exSessionRunning) "x").1).mpr
    ⟨exSessionRunning, rfl, rfl⟩

/-- **C1** counterexample: when the adapter fails to spawn, `terminal.run`
throws (`Except.error`) — it does not return a `success:false` record. -/
theorem C1_counterexample :
    (runToolSpawnFail (newSession "s1" 0) "spawn ENOENT").2 =
      Except.error "Failed to start command: spawn ENOENT" ∧
    ¬ ∃ r, (runToolSpawnFail (newSession "s1" 0) "spawn ENOENT").2 = Except.ok r := by
  refine ⟨rfl, ?_⟩
  rintro ⟨r, hr⟩
  exact Except.noConfusion hr

/-- **C1** (amended): when the spawned process exits, `run` resolves
exactly once — the promise keeps the first resolution — with the record
{ sessionId, output = joined buffer, exitCode, success = (exitCode == 0),
error? }; the `CommandResult` record carries no exit signal.  At
resolution the session status is `completed` (exit code 0) or `error`.
When the adapter fails to spawn, the session is marked errored and the
call throws instead of resolving. -/
theorem C1_run_result (sess : Session) (code : Option Int) (signal : Option String)
    (msg : String) :
    ((runToolOnExit sess code signal).1.status = .completed ∨
     (runToolOnExit sess code signal).1.status = .error) ∧
    ((runToolOnExit sess code signal).1.status = .completed ↔ code = some 0) ∧
    (runToolOnExit sess code signal).2.sessionId = sess.id ∧
    (runToolOnExit sess code signal).2.output = String.join sess.buf ∧
    (runToolOnExit sess code signal).2.exitCode = code ∧
    ((runToolOnExit sess code signal).2.success = true ↔ code = some 0) ∧
    ((runToolOnExit sess code signal).2.success = false →
      ∃ e, (runToolOnExit sess code signal).2.error = some e) ∧
    (runToolSpawnFail sess msg).1.status = .error ∧
    (runToolSpawnFail sess msg).1.errorReason = some msg ∧
    (runToolSpawnFail sess msg).2 = Except.error ("Failed to start command: " ++ msg) := by
  by_cases hc : code = some 0
  · subst hc
    simp [runToolOnExit, runToolSpawnFail]
  · simp [runToolOnExit, runToolSpawnFail, hc]

/-- Witness for C1 at a clean zero exit. -/
theorem C1_run_result_witness :
    (runToolOnExit exSessionRunning (some 0) none).1.status = .completed :=
  ((C1_run_result exSessionRunning (some 0) none "boom").2.1).mpr rfl

/-- **C9** counterexample: a line that is not valid JSON produces no
response at all — it is silently dropped, no -32700 error is sent. -/
theorem C9_counterexample :
    dispatch [] none = none ∧
    ¬ ∃ resp, dispatch [] none = some resp ∧ resp.errCode = some (-32700) := by
  refine ⟨rfl, ?_⟩
  rintro ⟨resp, hr, -⟩
  exact Option.noConfusion hr

/-- **C9** (amended): a request carrying an id whose method is not
registered is answered with a -32601 error response; a raw line that fails
JSON parsing is silently ignored (no response, in particular no -32700). -/
theorem C9_dispatch (handlers : List (String × Handler)) (v : JValue)
    (m : String) (idv : JValue)
    (hf : jsFalsy v = false)
    (hver : getField v "jsonrpc" = some (.str "2.0"))
    (hm : getField v "method" = some (.str m))
    (hl : lookupHandler handlers m = none)
    (hid : getField v "id" = some idv) :
    dispatch handlers (some v) =
      some { id := idv, result := none, errCode := some (-32601),
             errMsg := some ("Method not found: " ++ m) } ∧
    dispatch handlers none = none := by
  refine ⟨?_, rfl⟩
  simp [dispatch, hf, hver, hm, hl, hid]

/-- Witness for C9 at a concrete unregistered method. -/
theorem C9_dispatch_witness :
    dispatch [] (some exReqUnknownMethod) =
      some { id := .num 1, result := none, errCode := some (-32601),
             errMsg := some "Method not found: nope" } :=
  (C9_dispatch [] exReqUnknownMethod "nope" (.num 1) rfl rfl rfl rfl rfl).1

/-! ## Session-layer lemmas -/

/-- Arming the quiet timer touches only the timer bookkeeping. -/
theorem scheduleQuietComplete_parts (st : HState) :
    (scheduleQuietComplete st).sess = st.sess ∧
    (scheduleQuietComplete st).idleArmed = st.idleArmed ∧
    (scheduleQuietComplete st).firedTimers = st.firedTimers ∧
    (scheduleQuietComplete st).lastLine = st.lastLine ∧
    (scheduleQuietComplete st).nextTimerId = st.nextTimerId + 1 ∧
    (scheduleQuietComplete st).quietTimer = some st.nextTimerId := by
  unfold scheduleQuietComplete
  cases hq : st.quietTimer <;> simp

/-- The shape of a per-line classification step: only `promptRe`,
`lastLine` and the quiet-timer bookkeeping can change. -/
theorem processLine_shape (st : HState) (line : String) :
    ∃ pr ll qt ct nt, processLine st line =
      { st with
        sess := { st.sess with promptRe := pr },
        lastLine := ll,
        quietTimer := qt,
        cancelledTimers := ct,
        nextTimerId := nt } := by
  dsimp only [processLine, scheduleQuietComplete]
  repeat' split
  all_goals exact ⟨_, _, _, _, _, rfl⟩

/-- The per-line classification step touches neither the buffer
bookkeeping nor the status, adapter, idle timer or fired set. -/
theorem processLine_parts (st : HState) (line : String) :
    (processLine st line).sess.buf = st.sess.buf ∧
    (processLine st line).sess.totalBytes = st.sess.totalBytes ∧
    (processLine st line).sess.maxBufferBytes = st.sess.maxBufferBytes ∧
    (processLine st line).sess.lastByteAt = st.sess.lastByteAt ∧
    (processLine st line).sess.status = st.sess.status ∧
    (processLine st line).sess.adapterPresent = st.sess.adapterPresent ∧
    (processLine st line).idleArmed = st.idleArmed ∧
    (processLine st line).firedTimers = st.firedTimers := by
  obtain ⟨pr, ll, qt, ct, nt, heq⟩ := processLine_shape st line
  rw [heq]
  exact ⟨rfl, rfl, rfl, rfl, rfl, rfl, rfl, rfl⟩

/-- Extension of `processLine_parts` along the lines of a chunk. -/
theorem processLines_parts (lines : List String) :
    ∀ st : HState,
    (processLines st lines).sess.buf = st.sess.buf ∧
    (processLines st lines).sess.totalBytes = st.sess.totalBytes ∧
    (processLines st lines).sess.maxBufferBytes = st.sess.maxBufferBytes ∧
    (processLines st lines).sess.lastByteAt = st.sess.lastByteAt ∧
    (processLines st lines).sess.status = st.sess.status ∧
    (processLines st lines).sess.adapterPresent = st.sess.adapterPresent ∧
    (processLines st lines).idleArmed = st.idleArmed ∧
    (processLines st lines).firedTimers = st.firedTimers := by
  induction lines with
  | nil => intro st; exact ⟨rfl, rfl, rfl, rfl, rfl, rfl, rfl, rfl⟩
  | cons l rest ih =>
    intro st
    have h1 := processLine_parts st l
    have h2 := ih (processLine st l)
    simp only [processLines, List.foldl] at h2 ⊢
    exact ⟨h2.1.trans h1.1, (h2.2.1).trans h1.2.1, (h2.2.2.1).trans h1.2.2.1,
      (h2.2.2.2.1).trans h1.2.2.2.1, (h2.2.2.2.2.1).trans h1.2.2.2.2.1,
      (h2.2.2.2.2.2.1).trans h1.2.2.2.2.2.1,
      (h2.2.2.2.2.2.2.1).trans h1.2.2.2.2.2.2.1,
      (h2.2.2.2.2.2.2.2).trans h1.2.2.2.2.2.2.2⟩

/-- `sumBytes` distributes over append. -/
theorem sumBytes_append (l1 l2 : List String) :
    sumBytes (l1 ++ l2) = sumBytes l1 + sumBytes l2 := by
  simp [sumBytes]

/-- A suffix stays a suffix after appending on the right. -/
theorem isSuffix_append_right {α : Type} {l1 l2 l3 : List α} (h : l1 <:+ l2) :
    l1 ++ l3 <:+ l2 ++ l3 := by
  obtain ⟨u, hu⟩ := h
  exact ⟨u, by rw [← hu, List.append_assoc]⟩

/-- The trimming loop: it preserves the byte-count bookkeeping, drops
chunks only from the front, stops at the cap or at a single remaining
chunk, and never empties a nonempty buffer. -/
theorem trimBuf_spec (cap : Nat) (buf : List String) :
    ∀ total, total = sumBytes buf →
    (trimBuf cap buf total).2 = sumBytes (trimBuf cap buf total).1 ∧
    (trimBuf cap buf total).1 <:+ buf ∧
    ((trimBuf cap buf total).2 ≤ cap ∨ (trimBuf cap buf total).1.length = 1) ∧
    (buf ≠ [] → (trimBuf cap buf total).1 ≠ []) := by
  induction buf with
  | nil =>
    intro total h
    simp [sumBytes] at h
    simp [trimBuf, sumBytes, h]
  | cons x rest ih =>
    intro total h
    cases rest with
    | nil =>
      refine ⟨h, List.suffix_refl _, Or.inr rfl, fun _ => by simp [trimBuf]⟩
    | cons y rest2 =>
      by_cases hgt : total > cap
      · rw [show trimBuf cap (x :: y :: rest2) total =
            trimBuf cap (y :: rest2) (total - x.utf8ByteSize) from by
              rw [trimBuf, if_pos hgt]]
        have h2 : total - x.utf8ByteSize = sumBytes (y :: rest2) := by
          rw [h, show sumBytes (x :: y :: rest2) =
            x.utf8ByteSize + sumBytes (y :: rest2) from by simp [sumBytes]]
          omega
        obtain ⟨hsum, hsuf, hcap, hne⟩ := ih _ h2
        exact ⟨hsum, hsuf.trans (List.suffix_cons _ _), hcap,
          fun _ => hne (by simp)⟩
      · rw [show trimBuf cap (x :: y :: rest2) total = (x :: y :: rest2, total) from by
          rw [trimBuf, if_neg hgt]]
        exact ⟨h, List.suffix_refl _, Or.inl (by omega), fun _ => by simp⟩

/-- The shape of a quiet-timer firing: only the status, the fired set and
the idle-timer bit can change. -/
theorem stepH_quietFire_shape (w s : Nat) (st : HState) (tid : Nat) :
    ∃ status2 fired2 idle2, stepH w s st (.quietFire tid) =
      { st with
        sess := { st.sess with status := status2 },
        firedTimers := fired2,
        idleArmed := idle2 } := by
  dsimp only [stepH]
  repeat' split
  all_goals exact ⟨_, _, _, rfl⟩

/-- The shape of an idle tick: only the status can change. -/
theorem stepH_idleTick_shape (w s : Nat) (st : HState) (now : Nat) :
    ∃ status2, stepH w s st (.idleTick now) =
      { st with sess := { st.sess with status := status2 } } := by
  dsimp only [stepH]
  repeat' split
  all_goals exact ⟨_, rfl⟩

/-- One step preserves the buffer invariant, keeps the configured cap, and
only ever appends the arriving chunk at the back or drops from the
front. -/
theorem stepH_bufInvariant (w s : Nat) (st : HState) (e : HEvent)
    (h : bufInvariant st) :
    bufInvariant (stepH w s st e) ∧
    (stepH w s st e).sess.maxBufferBytes = st.sess.maxBufferBytes ∧
    (stepH w s st e).sess.buf <:+ st.sess.buf ++ chunkTexts [e] := by
  obtain ⟨hsum, hcap⟩ := h
  cases e with
  | chunk text now =>
    have hp := processLines_parts (splitLines text) st
    obtain ⟨hb, ht, hm, -, -, -, -, -⟩ := hp
    have htot : (processLines st (splitLines text)).sess.totalBytes + text.utf8ByteSize =
        sumBytes ((processLines st (splitLines text)).sess.buf ++ [text]) := by
      rw [sumBytes_append, ht, hb, ← hsum]
      simp [sumBytes]
    obtain ⟨tsum, tsuf, tcap, -⟩ :=
      trimBuf_spec (bufferCap (processLines st (splitLines text)).sess.maxBufferBytes)
        ((processLines st (splitLines text)).sess.buf ++ [text]) _ htot
    refine ⟨⟨?_, ?_⟩, ?_, ?_⟩
    · simpa [stepH] using tsum
    · simpa [stepH, hm] using tcap
    · simpa [stepH] using hm
    · simp only [stepH, chunkTexts, List.filterMap]
      exact (by simpa [hb] using tsuf)
  | exitEvt =>
    have hp := (scheduleQuietComplete_parts st).1
    refine ⟨⟨?_, ?_⟩, ?_, ?_⟩ <;>
      simp only [stepH] <;> rw [hp] <;>
        first
          | exact hsum
          | exact hcap
          | rfl
          | simp [chunkTexts]
  | quietFire tid =>
    obtain ⟨s2, f2, i2, heq⟩ := stepH_quietFire_shape w s st tid
    rw [heq]
    exact ⟨⟨hsum, hcap⟩, rfl, by simp [chunkTexts]⟩
  | idleTick now =>
    obtain ⟨s2, heq⟩ := stepH_idleTick_shape w s st now
    rw [heq]
    exact ⟨⟨hsum, hcap⟩, rfl, by simp [chunkTexts]⟩
  | startIdle =>
    refine ⟨⟨hsum, hcap⟩, rfl, ?_⟩
    simp [stepH, chunkTexts]

/-- `chunkTexts` distributes over cons. -/
theorem chunkTexts_cons (e : HEvent) (rest : List HEvent) :
    chunkTexts (e :: rest) = chunkTexts [e] ++ chunkTexts rest := by
  cases e <;> simp [chunkTexts]

/-- The fold of `stepH` preserves the buffer invariant and keeps the
buffer a suffix of everything ever pushed. -/
theorem runH_bufInvariant (w s : Nat) (events : List HEvent) :
    ∀ st : HState, bufInvariant st →
    bufInvariant (runH w s st events) ∧
    (runH w s st events).sess.maxBufferBytes = st.sess.maxBufferBytes ∧
    (runH w s st events).sess.buf <:+ st.sess.buf ++ chunkTexts events := by
  induction events with
  | nil =>
    intro st h
    exact ⟨h, rfl, by simp [runH, chunkTexts]⟩
  | cons e rest ih =>
    intro st h
    obtain ⟨h1, hmax1, hsuf1⟩ := stepH_bufInvariant w s st e h
    obtain ⟨h2, hmax2, hsuf2⟩ := ih (stepH w s st e) h1
    refine ⟨h2, hmax2.trans hmax1, ?_⟩
    have step1 : (runH w s st (e :: rest)).sess.buf <:+
        (stepH w s st e).sess.buf ++ chunkTexts rest := hsuf2
    have step2 : (stepH w s st e).sess.buf ++ chunkTexts rest <:+
        (st.sess.buf ++ chunkTexts [e]) ++ chunkTexts rest :=
      isSuffix_append_right hsuf1
    have := step1.trans step2
    rwa [List.append_assoc, ← chunkTexts_cons] at this

/-- **C2**: from a fresh `run` session with positive configured cap, after
every event sequence `totalBytes` equals the summed UTF-8 byte lengths of
the buffered chunks; either `totalBytes ≤ maxBufferBytes` or exactly one
(oversized) chunk is retained; and the buffer is a suffix of the chunk
stream, i.e. trimming drops oldest chunks first and keeps the most recent
bytes. -/
theorem C2_buffer_invariant (w s m : Nat) (id : String) (now : Nat)
    (events : List HEvent) (hm : 0 < m) :
    let st := runH w s (initialHState (runSessionStart id now m)) events
    st.sess.totalBytes = sumBytes st.sess.buf ∧
    (st.sess.totalBytes ≤ m ∨ st.sess.buf.length = 1) ∧
    st.sess.buf <:+ chunkTexts events := by
  intro st
  have h0 : bufInvariant (initialHState (runSessionStart id now m)) := by
    refine ⟨rfl, Or.inl ?_⟩
    simp [initialHState, runSessionStart, newSession]
  obtain ⟨⟨hsum, hcap⟩, hmax, hsuf⟩ := runH_bufInvariant w s events _ h0
  have hmax2 : (runH w s (initialHState (runSessionStart id now m)) events).sess.maxBufferBytes = m :=
    hmax
  refine ⟨hsum, ?_, by simpa [initialHState, runSessionStart, newSession] using hsuf⟩
  rcases hcap with hc | hc
  · left
    rw [hmax2] at hc
    rwa [bufferCap, if_neg (by omega)] at hc
  · right
    exact hc

/-- Witness for C2: one chunk through a fresh session. -/
theorem C2_buffer_invariant_witness :
    0 < 2000000 ∧
    ((runH 10000 45000 (initialHState (runSessionStart "s" 0 2000000))
        [.chunk "hi" 5]).sess.totalBytes =
      sumBytes (runH 10000 45000 (initialHState (runSessionStart "s" 0 2000000))
        [.chunk "hi" 5]).sess.buf ∧
    ((runH 10000 45000 (initialHState (runSessionStart "s" 0 2000000))
        [.chunk "hi" 5]).sess.totalBytes ≤ 2000000 ∨
      (runH 10000 45000 (initialHState (runSessionStart "s" 0 2000000))
        [.chunk "hi" 5]).sess.buf.length = 1) ∧
    (runH 10000 45000 (initialHState (runSessionStart "s" 0 2000000))
        [.chunk "hi" 5]).sess.buf <:+ chunkTexts [.chunk "hi" 5]) :=
  ⟨by decide, C2_buffer_invariant 10000 45000 2000000 "s" 0 [.chunk "hi" 5] (by decide)⟩

/-! ## Status lemmas -/

/-- A data chunk never changes the status. -/
theorem stepH_chunk_status (w s : Nat) (st : HState) (text : String) (now : Nat) :
    (stepH w s st (.chunk text now)).sess.status = st.sess.status := by
  have hp := processLines_parts (splitLines text) st
  simp only [stepH]
  exact hp.2.2.2.2.1

/-- A quiet-timer event either completes the session or leaves the status
alone. -/
theorem stepH_quietFire_status (w s : Nat) (st : HState) (tid : Nat) :
    (stepH w s st (.quietFire tid)).sess.status = .completed ∨
    (stepH w s st (.quietFire tid)).sess.status = st.sess.status := by
  dsimp only [stepH]
  repeat' split
  all_goals first
    | exact Or.inl rfl
    | exact Or.inr rfl

/-- The idle tick only reclassifies sessions in status `running` or
`waiting`; any other status is left untouched. -/
theorem stepH_idleTick_status_frozen (w s : Nat) (st : HState) (now : Nat)
    (h1 : st.sess.status ≠ .running) (h2 : st.sess.status ≠ .waiting) :
    (stepH w s st (.idleTick now)).sess.status = st.sess.status := by
  simp only [stepH]
  by_cases hi : st.idleArmed = true
  · rw [if_pos hi]
    have hng1 : ¬(st.sess.status = .running ∧ now - st.sess.lastByteAt > w) :=
      fun hc => h1 hc.1
    rw [if_neg hng1]
    have hng2 : ¬((st.sess.status = .waiting ∨ st.sess.status = .running) ∧
        now - st.sess.lastByteAt > s) := by
      rintro ⟨hw | hr, -⟩
      · exact h2 hw
      · exact h1 hr
    rw [if_neg hng2]
  · rw [if_neg hi]

/-- From `possibly-stuck` a session can only stay `possibly-stuck` or be
completed by the quiet timer; no event path leads back to `running`. -/
theorem stepH_stuck_inv (w s : Nat) (st : HState) (e : HEvent)
    (h : st.sess.status = .possiblyStuck ∨ st.sess.status = .completed) :
    (stepH w s st e).sess.status = .possiblyStuck ∨
    (stepH w s st e).sess.status = .completed := by
  cases e with
  | chunk text now => rw [stepH_chunk_status]; exact h
  | exitEvt =>
    simp only [stepH]
    rw [(scheduleQuietComplete_parts st).1]
    exact h
  | quietFire tid =>
    rcases stepH_quietFire_status w s st tid with h1 | h1
    · exact Or.inr h1
    · rw [h1]; exact h
  | idleTick now =>
    have hfrozen : (stepH w s st (.idleTick now)).sess.status = st.sess.status := by
      rcases h with h | h <;>
        exact stepH_idleTick_status_frozen w s st now (by rw [h]; simp) (by rw [h]; simp)
    rw [hfrozen]
    exact h
  | startIdle => exact h

/-- Fold of `stepH_stuck_inv` over a trace. -/
theorem runH_stuck_inv (w s : Nat) (events : List HEvent) :
    ∀ st : HState,
    st.sess.status = .possiblyStuck ∨ st.sess.status = .completed →
    (runH w s st events).sess.status = .possiblyStuck ∨
    (runH w s st events).sess.status = .completed := by
  induction events with
  | nil => intro st h; exact h
  | cons e rest ih => intro st h; exact ih _ (stepH_stuck_inv w s st e h)

/-- `completed` is absorbing in the heuristics engine. -/
theorem stepH_completed_absorbing (w s : Nat) (st : HState) (e : HEvent)
    (h : st.sess.status = .completed) :
    (stepH w s st e).sess.status = .completed := by
  cases e with
  | chunk text now => rw [stepH_chunk_status]; exact h
  | exitEvt =>
    simp only [stepH]
    rw [(scheduleQuietComplete_parts st).1]
    exact h
  | quietFire tid =>
    dsimp only [stepH]
    by_cases hc : st.quietTimer = some tid ∧ tid ∉ st.cancelledTimers ∧
        tid ∉ st.firedTimers
    · rw [if_pos hc, if_neg (by simp [h])]
      exact h
    · rw [if_neg hc]
      exact h
  | idleTick now =>
    rw [stepH_idleTick_status_frozen w s st now (by rw [h]; simp) (by rw [h]; simp)]
    exact h
  | startIdle => exact h

/-- A completed session never transitions into `completed` again. -/
theorem countCompleted_completed (w s : Nat) (events : List HEvent) :
    ∀ st : HState, st.sess.status = .completed →
    countCompleted w s st events = 0 := by
  induction events with
  | nil => intro st h; rfl
  | cons e rest ih =>
    intro st h
    have habs := stepH_completed_absorbing w s st e h
    simp only [countCompleted]
    rw [if_neg (by simp [h]), ih _ habs]

/-- **C4** counterexample: a possibly-stuck session receives fresh
non-spinner output (which does update `lastByteAt`), yet no following idle
tick — at any clock value — reclassifies it back to `running`: the idle
loop only moves forward. -/
theorem C4_counterexample :
    (stepH 10000 45000 exHStateStuck (.chunk "new output\n" 100)).sess.lastByteAt = 100 ∧
    ¬ ∃ n1 n2 : Nat,
      (runH 10000 45000 exHStateStuck
        [.chunk "new output\n" n1, .idleTick n2]).sess.status = .running := by
  refine ⟨rfl, ?_⟩
  rintro ⟨n1, n2, hrun⟩
  rcases runH_stuck_inv 10000 45000 [.chunk "new output\n" n1, .idleTick n2]
      exHStateStuck (Or.inl rfl) with h1 | h1 <;>
    rw [hrun] at h1 <;> exact SessionStatus.noConfusion h1

/-- **C4** (amended): in status `possibly-stuck`, new non-spinner output
updates `lastByteAt`, but no sequence of chunk, exit, timer or idle-tick
events ever returns the session to status `running`: the idle loop never
demotes, so the session stays `possibly-stuck` until it is completed. -/
theorem C4_no_return_to_running (w s : Nat) (st : HState) (events : List HEvent)
    (h : st.sess.status = .possiblyStuck) :
    (runH w s st events).sess.status ≠ .running := by
  rcases runH_stuck_inv w s events st (Or.inl h) with h1 | h1 <;> rw [h1] <;> simp

/-- Witness for C4 on a concrete possibly-stuck trace. -/
theorem C4_no_return_to_running_witness :
    (runH 10000 45000 exHStateStuck
      [.chunk "hello\n" 100, .idleTick 101]).sess.status ≠ .running :=
  C4_no_return_to_running 10000 45000 exHStateStuck
    [.chunk "hello\n" 100, .idleTick 101] rfl

/-- **C3** counterexample: a running session with a live adapter whose
prompt matches arms the quiet timer; when the timer fires the status
becomes `completed`, yet the adapter handle is still present — it is never
released. -/
theorem C3_counterexample :
    (runH 10000 45000 (initialHState exSessionRunning)
      [.startIdle, .chunk "prompt$ \n" 5, .quietFire 0]).sess.status = .completed ∧
    (runH 10000 45000 (initialHState exSessionRunning)
      [.startIdle, .chunk "prompt$ \n" 5, .quietFire 0]).sess.adapterPresent = true :=
  ⟨rfl, rfl⟩

/-- **C3** (amended): immediately after the quiet-complete timer fires on a
non-terminal session, the status is `completed`, the quiet timer is no
longer pending, the idle interval is cancelled — but the adapter handle is
retained, not released. -/
theorem C3_quiet_fire_cleanup (w s : Nat) (st : HState) (tid : Nat)
    (h1 : st.quietTimer = some tid) (h2 : tid ∉ st.cancelledTimers)
    (h3 : tid ∉ st.firedTimers)
    (h4 : st.sess.status ≠ .completed) (h5 : st.sess.status ≠ .error) :
    (stepH w s st (.quietFire tid)).sess.status = .completed ∧
    quietPendingB (stepH w s st (.quietFire tid)) = false ∧
    (stepH w s st (.quietFire tid)).idleArmed = false ∧
    (stepH w s st (.quietFire tid)).sess.adapterPresent = st.sess.adapterPresent := by
  have hstep : stepH w s st (.quietFire tid) =
      { st with
        sess := { st.sess with status := .completed },
        firedTimers := tid :: st.firedTimers,
        idleArmed := false } := by
    dsimp only [stepH]
    rw [if_pos ⟨h1, h2, h3⟩, if_pos ⟨h4, h5⟩]
  rw [hstep]
  refine ⟨rfl, ?_, rfl, rfl⟩
  simp [quietPendingB, h1]

/-- Witness for C3 on the armed example state. -/
theorem C3_quiet_fire_cleanup_witness :
    (stepH 10000 45000 exHStateQuietArmed (.quietFire 0)).sess.status = .completed ∧
    quietPendingB (stepH 10000 45000 exHStateQuietArmed (.quietFire 0)) = false ∧
    (stepH 10000 45000 exHStateQuietArmed (.quietFire 0)).idleArmed = false ∧
    (stepH 10000 45000 exHStateQuietArmed (.quietFire 0)).sess.adapterPresent =
      exHStateQuietArmed.sess.adapterPresent :=
  C3_quiet_fire_cleanup 10000 45000 exHStateQuietArmed 0 rfl (by decide) (by decide)
    (by decide) (by decide)

/-- **C5**: rearming the quiet one-shot before a pending arming has fired
cancels the pending timer: the cancelled identifier can no longer fire,
the firing of the fresh identifier produces the single transition to
`completed`, and no continuation of the trace ever produces another. -/
theorem C5_quiet_rearm (w s : Nat) (st : HState) (t : Nat)
    (hq : st.quietTimer = some t)
    (hc1 : st.sess.status ≠ .completed) (hc2 : st.sess.status ≠ .error)
    (hwf1 : ∀ x ∈ st.cancelledTimers, x < st.nextTimerId)
    (hwf2 : ∀ x ∈ st.firedTimers, x < st.nextTimerId)
    (hwft : t < st.nextTimerId) :
    (t ∈ (scheduleQuietComplete st).cancelledTimers ∧
     (scheduleQuietComplete st).quietTimer = some st.nextTimerId) ∧
    stepH w s (scheduleQuietComplete st) (.quietFire t) = scheduleQuietComplete st ∧
    countCompleted w s (scheduleQuietComplete st)
      [.quietFire t, .quietFire st.nextTimerId] = 1 ∧
    (∀ events, countCompleted w s
      (runH w s (scheduleQuietComplete st)
        [.quietFire t, .quietFire st.nextTimerId]) events = 0) := by
  have hne : st.nextTimerId ≠ t := by omega
  have hb1 : st.nextTimerId ∉ t :: st.cancelledTimers := by
    intro hmem
    rcases List.mem_cons.mp hmem with hx | hx
    · exact hne hx
    · exact absurd (hwf1 _ hx) (by omega)
  have hb2 : st.nextTimerId ∉ st.firedTimers := by
    intro hmem
    exact absurd (hwf2 _ hmem) (by omega)
  have hsched : scheduleQuietComplete st =
      { st with
        cancelledTimers := t :: st.cancelledTimers,
        quietTimer := some st.nextTimerId,
        nextTimerId := st.nextTimerId + 1 } := by
    dsimp only [scheduleQuietComplete]
    rw [hq]
  have hfiret : stepH w s (scheduleQuietComplete st) (.quietFire t) =
      scheduleQuietComplete st := by
    rw [hsched]
    dsimp only [stepH]
    rw [if_neg]
    rintro ⟨hx, -⟩
    exact hne (by injection hx)
  have hfireb : stepH w s (scheduleQuietComplete st) (.quietFire st.nextTimerId) =
      { st with
        sess := { st.sess with status := .completed },
        quietTimer := some st.nextTimerId,
        idleArmed := false,
        cancelledTimers := t :: st.cancelledTimers,
        firedTimers := st.nextTimerId :: st.firedTimers,
        nextTimerId := st.nextTimerId + 1 } := by
    rw [hsched]
    dsimp only [stepH]
    rw [if_pos ⟨rfl, hb1, hb2⟩, if_pos ⟨hc1, hc2⟩]
  refine ⟨⟨?_, ?_⟩, hfiret, ?_, ?_⟩
  · rw [hsched]
    exact List.mem_cons_self _ _
  · rw [hsched]
  · have hind2 : (scheduleQuietComplete st).sess.status ≠ .completed := by
      rw [(scheduleQuietComplete_parts st).1]
      exact hc1
    simp only [countCompleted, hfiret, hfireb]
    simp [hind2]
  · intro events
    have hstatus : (runH w s (scheduleQuietComplete st)
        [.quietFire t, .quietFire st.nextTimerId]).sess.status = .completed := by
      show (stepH w s (stepH w s (scheduleQuietComplete st) (.quietFire t))
        (.quietFire st.nextTimerId)).sess.status = .completed
      rw [hfiret, hfireb]
    exact countCompleted_completed w s events _ hstatus

/-- Witness for C5 on the armed example state. -/
theorem C5_quiet_rearm_witness :
    (0 ∈ (scheduleQuietComplete exHStateQuietArmed).cancelledTimers ∧
     (scheduleQuietComplete exHStateQuietArmed).quietTimer = some 1) ∧
    stepH 10000 45000 (scheduleQuietComplete exHStateQuietArmed) (.quietFire 0) =
      scheduleQuietComplete exHStateQuietArmed ∧
    countCompleted 10000 45000 (scheduleQuietComplete exHStateQuietArmed)
      [.quietFire 0, .quietFire 1] = 1 ∧
    (∀ events, countCompleted 10000 45000
      (runH 10000 45000 (scheduleQuietComplete exHStateQuietArmed)
        [.quietFire 0, .quietFire 1]) events = 0) :=
  C5_quiet_rearm 10000 45000 exHStateQuietArmed 0 rfl (by decide) (by decide)
    (by simp [exHStateQuietArmed, initialHState]) (by simp [exHStateQuietArmed, initialHState])
    (by decide)

end MCPTerm
